import Mathlib

/-!
Shallow embedding of the Personal Library Manager (src/app.py, class
`LibraryManager`) and verification of its specification.

Modelling choices:
* A book record (a Python dict with fixed keys) is the structure `Book`;
  the in-memory catalog `self.library` is a `List Book` for the pure
  list-level operations.
* Python `int` is `Int`; Python `float` arithmetic in `get_statistics`
  is modelled exactly over `ℚ`.
* Python string lowercasing is per-character (`Char.toLower` on the
  character list); Python's substring operator `in` is `occursIn`;
  Python's lexicographic string comparison (by code point) is `lexLe`.
* `datetime.now().strftime(...)` is an explicit `today : String` argument.
* For persistence, the file system is `FS := Option (Option PyVal)`:
  `none` = the file does not exist, `some none` = the file exists but its
  contents do not parse as JSON, `some (some v)` = the file exists and
  parses to the JSON value `v`.  `json.dump` followed by `json.load` is
  the identity at the level of JSON values, so a successful save writes
  the manager's library value itself.  A write failure (the `except`
  branch of `save_library`) is an explicit `writeOk : Bool` argument.
-/

/-- A book record: the dict built by `LibraryManager.add_book`. -/
structure Book where
  title : String
  author : String
  year : Int
  genre : String
  read : Bool
  date_added : String
deriving DecidableEq, Inhabited

/-- Per-character lowercasing of a string, modelling Python `str.lower()`. -/
def lowerChars (s : String) : List Char := s.data.map Char.toLower

/-- `leadsWith q s` is true when `q` is an initial segment of `s`. -/
def leadsWith : List Char → List Char → Bool
  | [], _ => true
  | _ :: _, [] => false
  | a :: as, b :: bs => a == b && leadsWith as bs

/-- `occursIn q s` models Python's substring test `q in s`:
true when `q` occurs contiguously inside `s`. -/
def occursIn (q : List Char) : List Char → Bool
  | [] => q.isEmpty
  | c :: tl => leadsWith q (c :: tl) || occursIn q tl

/-- Lexicographic comparison of character lists by code point,
modelling Python's `<=` on strings (as used by `sorted`). -/
def lexLe : List Char → List Char → Bool
  | [], _ => true
  | _ :: _, [] => false
  | a :: as, b :: bs => if a < b then true else if b < a then false else lexLe as bs

/-- The string order used by Python's `sorted` in `get_all_genres`. -/
def strLe (a b : String) : Prop := lexLe a.data b.data = true

instance : DecidableRel strLe :=
  fun a b => inferInstanceAs (Decidable (lexLe a.data b.data = true))

/-- `LibraryManager.add_book`: builds the record and appends it;
returns the new library and the constructed record. -/
def add_book (lib : List Book) (title author : String) (year : Int)
    (genre : String) (read_status : Bool) (today : String) :
    List Book × Book :=
  let book : Book :=
    { title := title, author := author, year := year, genre := genre,
      read := read_status, date_added := today }
  (lib ++ [book], book)

/-- `LibraryManager.remove_book`: `if 0 <= index < len(self.library)`
then `pop(index)` and return `(True, removed["title"])`,
else return `(False, "")`. -/
def remove_book (lib : List Book) (index : Int) :
    List Book × Bool × String :=
  if h : 0 ≤ index ∧ index < (lib.length : Int) then
    (lib.eraseIdx index.toNat, true,
      (lib.get ⟨index.toNat, by omega⟩).title)
  else
    (lib, false, "")

/-- `LibraryManager.search_by_title`: keeps the books whose lowered
title contains the lowered query as a substring. -/
def search_by_title (lib : List Book) (title : String) : List Book :=
  lib.filter fun book => occursIn (lowerChars title) (lowerChars book.title)

/-- `LibraryManager.search_by_author`: same, on the author field. -/
def search_by_author (lib : List Book) (author : String) : List Book :=
  lib.filter fun book => occursIn (lowerChars author) (lowerChars book.author)

/-- The dict returned by `LibraryManager.get_statistics`. -/
structure Stats where
  total : Nat
  read : Nat
  unread : Nat
  percentage : ℚ
deriving DecidableEq

/-- `LibraryManager.get_statistics`: count, read count, difference, and
`(read_books / total_books) * 100` guarded by `total_books > 0`. -/
def get_statistics (lib : List Book) : Stats :=
  let total_books := lib.length
  let read_books := lib.countP fun book => book.read
  let percentage_read : ℚ :=
    if 0 < total_books then ((read_books : ℚ) / (total_books : ℚ)) * 100 else 0
  { total := total_books, read := read_books,
    unread := total_books - read_books, percentage := percentage_read }

/-- `LibraryManager.get_all_genres`: `sorted(set(book["genre"] for book in lib))`. -/
def get_all_genres (lib : List Book) : List String :=
  List.insertionSort strLe ((lib.map Book.genre).dedup)

/-- `LibraryManager.filter_by_genre`: the sentinel `"All Genres"` returns
the whole library; otherwise exact equality on the genre field. -/
def filter_by_genre (lib : List Book) (genre : String) : List Book :=
  if genre = "All Genres" then lib
  else lib.filter fun book => book.genre == genre

/-- A JSON value as handled by Python's `json` module (numbers restricted
to the integers this program produces). -/
inductive PyVal where
  | null : PyVal
  | bool : Bool → PyVal
  | int : Int → PyVal
  | str : String → PyVal
  | arr : List PyVal → PyVal
  | obj : List (String × PyVal) → PyVal

/-- The persisted-file state: `none` = file absent; `some none` = file
present but not valid JSON; `some (some v)` = file parses to `v`. -/
abbrev FS := Option (Option PyVal)

/-- The manager's mutable state for the persistence layer: `self.library`
as the raw JSON-like value Python holds (a list of dicts when well-formed,
but `load_library` can install any value). -/
structure LibraryManager where
  library : PyVal

/-- The JSON encoding of one book record, key for key as `json.dump`
serialises the dict built by `add_book`. -/
def encodeBook (b : Book) : PyVal :=
  .obj [("title", .str b.title), ("author", .str b.author),
        ("year", .int b.year), ("genre", .str b.genre),
        ("read", .bool b.read), ("date_added", .str b.date_added)]

/-- The JSON encoding of a whole library (the array `json.dump` writes). -/
def encodeLibrary (lib : List Book) : PyVal :=
  .arr (lib.map encodeBook)

/-- `LibraryManager.save_library`: on a successful write the file now
holds the library's JSON value and `True` is returned; if the write
raises (`writeOk = false`), the file and the in-memory state are left
as they were and `False` is returned. -/
def save_library (m : LibraryManager) (fs : FS) (writeOk : Bool) :
    LibraryManager × FS × Bool :=
  if writeOk then (m, some (some m.library), true) else (m, fs, false)

/-- `LibraryManager.load_library`: result is (state, returned boolean,
whether an error message was displayed via `st.error`).  Missing file:
`(unchanged, False, no message)`.  Unparseable file: the `except` branch,
`(unchanged, False, message)`.  Parseable file: `self.library` is replaced
wholesale by the parsed value and `True` is returned. -/
def load_library (m : LibraryManager) (fs : FS) :
    LibraryManager × Bool × Bool :=
  match fs with
  | none => (m, false, false)
  | some none => (m, false, true)
  | some (some v) => ({ m with library := v }, true, false)

/-- `LibraryManager.__init__`: starts with an empty list and immediately
calls `load_library`. -/
def initManager (fs : FS) : LibraryManager × Bool × Bool :=
  load_library { library := PyVal.arr [] } fs

/-- Sample record used to instantiate theorems at concrete inputs. -/
def bkDune : Book :=
  { title := "Dune", author := "Frank Herbert", year := 1965,
    genre := "Sci-Fi", read := true, date_added := "2025-01-01" }

/-- Second sample record. -/
def bkEmma : Book :=
  { title := "Emma", author := "Jane Austen", year := 1815,
    genre := "Drama", read := false, date_added := "2025-01-02" }

-- supporting lemmas

theorem leadsWith_iff (q : List Char) : ∀ s, leadsWith q s = true ↔ ∃ t, s = q ++ t := by
  induction q with
  | nil => intro s; simp [leadsWith]
  | cons a as ih =>
    intro s
    cases s with
    | nil => simp [leadsWith]
    | cons b bs =>
      simp only [leadsWith, Bool.and_eq_true, beq_iff_eq, ih, List.cons_append,
        List.cons.injEq]
      constructor
      · rintro ⟨rfl, t, rfl⟩; exact ⟨t, rfl, rfl⟩
      · rintro ⟨t, rfl, rfl⟩; exact ⟨rfl, t, rfl⟩

theorem occursIn_iff (q : List Char) :
    ∀ s, occursIn q s = true ↔ ∃ pre post, s = pre ++ q ++ post := by
  intro s
  induction s with
  | nil =>
    simp only [occursIn, List.isEmpty_iff]
    constructor
    · rintro rfl; exact ⟨[], [], rfl⟩
    · rintro ⟨pre, post, h⟩
      rcases List.append_eq_nil.mp h.symm with ⟨h1, h2⟩
      exact (List.append_eq_nil.mp h1).2
  | cons c tl ih =>
    simp only [occursIn, Bool.or_eq_true, leadsWith_iff, ih]
    constructor
    · rintro (⟨t, ht⟩ | ⟨pre, post, rfl⟩)
      · exact ⟨[], t, by simp [ht]⟩
      · exact ⟨c :: pre, post, rfl⟩
    · rintro ⟨pre, post, h⟩
      cases pre with
      | nil => exact Or.inl ⟨post, by simpa using h⟩
      | cons p ps =>
        right
        simp only [List.cons_append, List.cons.injEq] at h
        exact ⟨ps, post, h.2⟩

theorem occursIn_nil_left : ∀ s, occursIn [] s = true := by
  intro s; cases s <;> simp [occursIn, leadsWith]

theorem lexLe_total : ∀ as bs : List Char, lexLe as bs = true ∨ lexLe bs as = true := by
  intro as
  induction as with
  | nil => intro bs; left; simp [lexLe]
  | cons a as ih =>
    intro bs
    cases bs with
    | nil => right; simp [lexLe]
    | cons b bs =>
      rcases lt_trichotomy a b with h | h | h
      · left; simp [lexLe, h]
      · subst h
        rcases ih bs with h2 | h2
        · left; simp [lexLe, h2, lt_irrefl]
        · right; simp [lexLe, h2, lt_irrefl]
      · right; simp [lexLe, h]

theorem lexLe_trans : ∀ as bs cs : List Char,
    lexLe as bs = true → lexLe bs cs = true → lexLe as cs = true := by
  intro as
  induction as with
  | nil => intro bs cs _ _; simp [lexLe]
  | cons a as ih =>
    intro bs cs h1 h2
    cases bs with
    | nil => simp [lexLe] at h1
    | cons b bs =>
      cases cs with
      | nil => simp [lexLe] at h2
      | cons c cs =>
        by_cases hab : a < b
        · -- first characters strictly increase into b; b ≤ c in the lex sense
          by_cases hbc : b < c
          · simp [lexLe, lt_trans hab hbc]
          · by_cases hcb : c < b
            · simp [lexLe, hbc, hcb] at h2
            · have : b = c := le_antisymm (not_lt.mp hcb) (not_lt.mp hbc)
              subst this
              simp [lexLe, hab]
        · by_cases hba : b < a
          · simp [lexLe, hab, hba] at h1
          · have : a = b := le_antisymm (not_lt.mp hba) (not_lt.mp hab)
            subst this
            by_cases hbc : a < c
            · simp [lexLe, hbc]
            · by_cases hcb : c < a
              · simp [lexLe, hbc, hcb] at h2
              · have : a = c := le_antisymm (not_lt.mp hcb) (not_lt.mp hbc)
                subst this
                simp only [lexLe, lt_irrefl, if_false] at h1 h2 ⊢
                exact ih bs cs h1 h2

instance : IsTotal String strLe := ⟨fun a b => lexLe_total a.data b.data⟩

instance : IsTrans String strLe := ⟨fun a b c => lexLe_trans a.data b.data c.data⟩


/-- Encoding one record is injective: equal JSON objects come from
field-for-field equal records. -/
theorem encodeBook_injective : Function.Injective encodeBook := by
  intro a b h
  simp only [encodeBook, PyVal.obj.injEq, List.cons.injEq, Prod.mk.injEq,
    PyVal.str.injEq, PyVal.int.injEq, PyVal.bool.injEq, and_true, true_and] at h
  cases a; cases b; simp_all

/-- C1: in-range `remove_book` removes exactly the record at the given
position (earlier records unchanged, later ones shifted down one), shrinks
the library by one and returns `(true, title of the removed record)`;
an out-of-range index (negative or at least the length) leaves the library
unchanged and returns `(false, "")`. -/
theorem remove_book_spec (lib : List Book) (index : Int) :
    (∀ (h0 : 0 ≤ index) (h1 : index < (lib.length : Int)),
      remove_book lib index =
        (lib.take index.toNat ++ lib.drop (index.toNat + 1), true,
          (lib.get ⟨index.toNat, by omega⟩).title) ∧
      (remove_book lib index).1.length = lib.length - 1) ∧
    (index < 0 ∨ (lib.length : Int) ≤ index →
      remove_book lib index = (lib, false, "")) := by
  constructor
  · intro h0 h1
    have hx : 0 ≤ index ∧ index < (lib.length : Int) := ⟨h0, h1⟩
    constructor
    · simp only [remove_book, dif_pos hx]
      rw [List.eraseIdx_eq_take_drop_succ]
    · simp only [remove_book, dif_pos hx]
      rw [List.length_eraseIdx]
      have hl : index.toNat < lib.length := by omega
      simp [hl]
  · intro h
    have hx : ¬(0 ≤ index ∧ index < (lib.length : Int)) := by omega
    simp [remove_book, hx]

/-- C1 witness: removing index 1 from a two-record library yields the
first record alone and the removed title; index −1 is rejected with the
library unchanged. -/
theorem remove_book_spec_witness :
    remove_book [bkDune, bkEmma] 1 = ([bkDune], true, "Emma") ∧
    remove_book [bkDune, bkEmma] (-1) = ([bkDune, bkEmma], false, "") := by
  constructor
  · have h := (remove_book_spec [bkDune, bkEmma] 1).1 (by decide) (by decide)
    rw [h.1]; rfl
  · exact (remove_book_spec [bkDune, bkEmma] (-1)).2 (Or.inl (by decide))

/-- C2: `get_statistics` returns the collection length, the count of
records with the read flag set, their difference, and `100·read/total`
(0 on an empty collection, with no division-by-zero fault). -/
theorem get_statistics_spec (lib : List Book) :
    (get_statistics lib).total = lib.length ∧
    (get_statistics lib).read = lib.countP (fun b => b.read) ∧
    (get_statistics lib).read ≤ (get_statistics lib).total ∧
    (get_statistics lib).unread =
      (get_statistics lib).total - (get_statistics lib).read ∧
    (get_statistics lib).percentage =
      (if 0 < lib.length then
        100 * ((lib.countP fun b => b.read : ℕ) : ℚ) / (lib.length : ℚ)
      else 0) ∧
    get_statistics [] = { total := 0, read := 0, unread := 0, percentage := 0 } := by
  refine ⟨rfl, rfl, List.countP_le_length _, rfl, ?_, rfl⟩
  simp only [get_statistics]
  split_ifs with h
  · ring
  · rfl

/-- C3: both searches return a subsequence of the library (original order)
holding exactly the records whose lowered field contains the lowered query
as a contiguous substring; the empty query returns every record. -/
theorem search_spec (lib : List Book) (q : String) :
    (search_by_title lib q).Sublist lib ∧
    (∀ b, b ∈ search_by_title lib q ↔
      b ∈ lib ∧ ∃ pre post, lowerChars b.title = pre ++ lowerChars q ++ post) ∧
    search_by_title lib "" = lib ∧
    (search_by_author lib q).Sublist lib ∧
    (∀ b, b ∈ search_by_author lib q ↔
      b ∈ lib ∧ ∃ pre post, lowerChars b.author = pre ++ lowerChars q ++ post) ∧
    search_by_author lib "" = lib := by
  refine ⟨List.filter_sublist _, ?_, ?_, List.filter_sublist _, ?_, ?_⟩
  · intro b
    simp only [search_by_title, List.mem_filter, occursIn_iff]
  · rw [search_by_title, List.filter_eq_self.mpr]
    intro a _
    rw [show lowerChars "" = [] from rfl]
    exact occursIn_nil_left _
  · intro b
    simp only [search_by_author, List.mem_filter, occursIn_iff]
  · rw [search_by_author, List.filter_eq_self.mpr]
    intro a _
    rw [show lowerChars "" = [] from rfl]
    exact occursIn_nil_left _

/-- C6: the sentinel `"All Genres"` returns the whole library; any other
argument returns the subsequence (original order) of exactly the records
whose genre field is an exact, case-sensitive match. -/
theorem filter_by_genre_spec (lib : List Book) (g : String) :
    (g = "All Genres" → filter_by_genre lib g = lib) ∧
    (g ≠ "All Genres" →
      (filter_by_genre lib g).Sublist lib ∧
      ∀ b, b ∈ filter_by_genre lib g ↔ b ∈ lib ∧ b.genre = g) := by
  constructor
  · intro h; simp [filter_by_genre, h]
  · intro h
    refine ⟨?_, ?_⟩
    · rw [filter_by_genre, if_neg h]
      exact List.filter_sublist _
    · intro b
      rw [filter_by_genre, if_neg h]
      simp [List.mem_filter]

/-- C6 witness: on a two-record library, `"All Genres"` returns both
records and filtering on `"Sci-Fi"` keeps `bkDune` but not `bkEmma`. -/
theorem filter_by_genre_spec_witness :
    filter_by_genre [bkDune, bkEmma] "All Genres" = [bkDune, bkEmma] ∧
    bkDune ∈ filter_by_genre [bkDune, bkEmma] "Sci-Fi" ∧
    bkEmma ∉ filter_by_genre [bkDune, bkEmma] "Sci-Fi" := by
  refine ⟨(filter_by_genre_spec [bkDune, bkEmma] "All Genres").1 rfl, ?_, ?_⟩
  · exact (((filter_by_genre_spec [bkDune, bkEmma] "Sci-Fi").2
      (by decide)).2 bkDune).mpr ⟨by simp, rfl⟩
  · intro hmem
    have h := (((filter_by_genre_spec [bkDune, bkEmma] "Sci-Fi").2
      (by decide)).2 bkEmma).mp hmem
    exact absurd h.2 (by decide)

/-- C7: `get_all_genres` has no duplicates, is sorted ascending in the
lexicographic (code-point) string order, and contains a value exactly when
some record has that genre. -/
theorem get_all_genres_spec (lib : List Book) :
    (get_all_genres lib).Nodup ∧
    (get_all_genres lib).Sorted strLe ∧
    ∀ g, g ∈ get_all_genres lib ↔ ∃ b ∈ lib, b.genre = g := by
  refine ⟨?_, List.sorted_insertionSort _ _, ?_⟩
  · exact (List.perm_insertionSort strLe _).nodup_iff.mpr (List.nodup_dedup _)
  · intro g
    rw [get_all_genres, (List.perm_insertionSort strLe _).mem_iff,
      List.mem_dedup, List.mem_map]

/-- C8: `add_book` is total (never rejects): for any inputs it appends,
at the end of the unchanged library, a record whose fields are exactly the
inputs with `date_added` the current date, and returns that record. -/
theorem add_book_spec (lib : List Book) (title author : String) (year : Int)
    (genre : String) (read_status : Bool) (today : String) :
    add_book lib title author year genre read_status today =
      (lib ++ [{ title := title, author := author, year := year, genre := genre,
                 read := read_status, date_added := today }],
       { title := title, author := author, year := year, genre := genre,
         read := read_status, date_added := today }) := rfl

/-- C4: saving a library of records and loading it into a fresh manager
reproduces exactly the saved ordered sequence, field for field (the
encoding of records into the persisted JSON is injective). -/
theorem save_load_round_trip (books : List Book) (fs : FS) :
    (initManager (save_library { library := encodeLibrary books } fs true).2.1).1.library
      = encodeLibrary books ∧
    (initManager (save_library { library := encodeLibrary books } fs true).2.1).2.1
      = true ∧
    Function.Injective encodeLibrary := by
  refine ⟨rfl, rfl, ?_⟩
  intro l1 l2 h
  simp only [encodeLibrary, PyVal.arr.injEq] at h
  exact List.map_injective_iff.mpr encodeBook_injective h

/-- C5 counterexample: on a missing file the boolean `load_library`
returns is `false` — the very value returned on the unparseable-file
failure path — not a distinct non-failure result. -/
theorem load_missing_returns_failure_value :
    (initManager none).2.1 = false ∧ (initManager (some none)).2.1 = false :=
  ⟨rfl, rfl⟩

/-- C5 (amended): on a missing file, a freshly constructed manager keeps
the empty collection and no error message is reported, but the call
returns `false`, the same boolean as the failure path. -/
theorem load_missing_file_spec :
    initManager none = ({ library := PyVal.arr [] }, false, false) := rfl

/-- C9: when the write fails, `save_library` returns `false` (no raise or
abort: the function is total), and both the in-memory state and the
persisted file are exactly as before the call. -/
theorem save_library_failure_spec (m : LibraryManager) (fs : FS) :
    save_library m fs false = (m, fs, false) := rfl

/-- C10: `load_library` performs no schema validation: any value the file
parses to — a number or arbitrary object as much as a list of records —
replaces the in-memory collection wholesale, with a `true` (success)
return and no error reported. -/
theorem load_library_no_validation (m : LibraryManager) (v : PyVal) :
    load_library m (some (some v)) = ({ library := v }, true, false) := rfl
